import Mathlib

/-
Verification of the Documentation-Code Consistency Engine
(ultra-doc pipeline: analyze-doc-state, add-code-pointers, analyze-coverage,
track-code-changes, validate-accuracy).

Timestamps are modelled as integer milliseconds since the epoch, matching the
JavaScript Date representation used throughout the scripts.  File-system reads
and subprocess calls are abstracted as explicit function parameters.
-/

namespace UltraDoc

/-- Milliseconds in a day, the constant 1000*60*60*24 used by the scripts. -/
def msPerDay : Int := 86400000

/-- Model of daysBetween (analyze-doc-state.mjs): Math.ceil of the absolute
millisecond difference divided by msPerDay. -/
def daysBetween (d1 d2 : Int) : Nat :=
  ((d2 - d1).natAbs + 86399999) / 86400000

/-- Staleness risk tiers produced by calculateStaleRisk. -/
inductive Risk where
  | none
  | low
  | medium
  | high
  | critical
deriving DecidableEq, Repr

/-- Model of calculateStaleRisk (analyze-doc-state.mjs, lines 78-93).
The code change time is optional: a null lastCodeChange yields risk none.
The comparison docDate >= codeDate is modelled as code <= doc. -/
def calculateStaleRisk (docUpdateTime : Int) (codeChangeTime : Option Int) : Risk :=
  match codeChangeTime with
  | Option.none => Risk.none
  | Option.some code =>
    if code ≤ docUpdateTime then Risk.none
    else
      let d := daysBetween docUpdateTime code
      if d > 30 then Risk.critical
      else if d > 7 then Risk.high
      else if d > 3 then Risk.medium
      else Risk.low

/-- Model of the lastCodeChange accumulation in analyzeDocState
(lines 151-158): fold over the linked files' modification times, replacing
the accumulator only on a strictly greater time. -/
def lastCodeChange (times : List Int) : Option Int :=
  times.foldl
    (fun acc t =>
      match acc with
      | Option.none => Option.some t
      | Option.some m => if t > m then Option.some t else Option.some m)
    Option.none

/-- Model of the status computation in analyzeDocState (line 163):
current when the risk is none or low, stale otherwise. -/
def statusOf (r : Risk) : String :=
  if r = Risk.none ∨ r = Risk.low then "current" else "stale"

/-- The risk-derivation ladder shared by the code and the spec:
more than 30 days critical, more than 7 high, more than 3 medium, else low. -/
def riskFromDays (d : Nat) : Risk :=
  if d > 30 then Risk.critical
  else if d > 7 then Risk.high
  else if d > 3 then Risk.medium
  else Risk.low

/-- The staleness rule exactly as claim C1 words it (a spec-side definition,
used only to compare against the code): risk is none when no dependency
changed at or after the document's last edit; otherwise the risk is derived
from the days between the last edit and the most recent dependency change. -/
def claimRiskC1 (docT : Int) (depTimes : List Int) : Risk :=
  match depTimes with
  | [] => Risk.none
  | t :: ts =>
    let m := ts.foldl max t
    if m < docT then Risk.none
    else riskFromDays (daysBetween docT m)

/-- The amended staleness rule: risk is none when no dependency changed
strictly after the document's last edit (a change at exactly the edit time
also yields none); otherwise derived from the day gap as in riskFromDays. -/
def amendedRiskC1 (docT : Int) (depTimes : List Int) : Risk :=
  match depTimes with
  | [] => Risk.none
  | t :: ts =>
    let m := ts.foldl max t
    if m ≤ docT then Risk.none
    else riskFromDays (daysBetween docT m)

/-- Model of the impact classification in analyzeChangeImpact
(track-code-changes.mjs, lines 88-104), as a function of the aggregate
lines added and removed over the earliest-to-latest diff and the
breaking-change flag derived from it. -/
def impactOf (linesAdded linesRemoved : Nat) (hasBreakingChange : Bool) : String :=
  let totalLines := linesAdded + linesRemoved
  let impact :=
    if totalLines > 100 then "high"
    else if totalLines > 20 then "medium"
    else "low"
  if hasBreakingChange then "high" else impact

/-- JavaScript word character class, used by the \w parts of the extraction
regexes: ASCII letters, digits and underscore. -/
def isWordChar (c : Char) : Bool := c.isAlphanum || c = '_'

/-- Whitespace recognised by the \s parts of the extraction regexes. -/
def isWsChar (c : Char) : Bool := c = ' ' || c = '\t' || c = '\n' || c = '\r'

/-- The three-backtick fence delimiter of the code-block regex. -/
def fenceChars : List Char := "```".data

/-- Strip an exact literal from the front of the input, returning the rest. -/
def dropPre? : List Char → List Char → Option (List Char)
  | [], cs => Option.some cs
  | _ :: _, [] => Option.none
  | p :: ps, c :: cs => if c = p then dropPre? ps cs else Option.none

/-- Split the input at the first three-backtick fence: the part before it and
the part after it (the lazy body capture of the code-block regex). -/
def splitAtFence : List Char → Option (List Char × List Char)
  | [] => Option.none
  | c :: cs =>
    match dropPre? fenceChars (c :: cs) with
    | Option.some rest => Option.some ([], rest)
    | Option.none =>
      match splitAtFence cs with
      | Option.some (b, r) => Option.some (c :: b, r)
      | Option.none => Option.none

/-- Try to match the opening of a fenced code block at the current position,
as the regex three backticks, then a run of word characters (the language
tag), then a newline, then a lazily captured body up to the closing fence.
Returns the body and the input after the closing fence. -/
def openFence? (cs : List Char) : Option (List Char × List Char) :=
  match dropPre? fenceChars cs with
  | Option.none => Option.none
  | Option.some afterTicks =>
    match afterTicks.dropWhile isWordChar with
    | [] => Option.none
    | c :: body0 =>
      if c = '\n' then splitAtFence body0 else Option.none

/-- Fuelled scan for all fenced code blocks, mirroring the global exec loop of
the code-block regex: on a match continue after the closing fence, on a
failure advance one character.  Fuel larger than the input length makes the
scan exhaustive. -/
def scanBlocks : Nat → List Char → List (List Char)
  | 0, _ => []
  | _ + 1, [] => []
  | fuel + 1, c :: cs =>
    match openFence? (c :: cs) with
    | Option.some (body, rest) => body :: scanBlocks fuel rest
    | Option.none => scanBlocks fuel cs

/-- Try one definition-shaped alternative at the current position: the
keyword literal, one or more whitespace characters, then a captured maximal
nonempty run of word characters.  Returns the capture and the rest. -/
def tryDefKw (kw : List Char) (cs : List Char) : Option (List Char × List Char) :=
  match dropPre? kw cs with
  | Option.none => Option.none
  | Option.some r =>
    match r with
    | [] => Option.none
    | c :: r1 =>
      if isWsChar c then
        let r2 := r1.dropWhile isWsChar
        let word := r2.takeWhile isWordChar
        if word.isEmpty then Option.none
        else Option.some (word, r2.drop word.length)
      else Option.none

/-- The single-quote character, written by code point to keep source plain. -/
def quoteA : Char := Char.ofNat 39

/-- Quote characters accepted by the import-path regex. -/
def isQuote (c : Char) : Bool := c = quoteA || c = '"'

/-- Try one import-shaped alternative at the current position: the keyword
literal, whitespace, a quote, a captured nonempty run of non-quote
characters, and a closing quote (either quote kind, as in the regex
character class). -/
def tryImportKw (kw : List Char) (cs : List Char) : Option (List Char × List Char) :=
  match dropPre? kw cs with
  | Option.none => Option.none
  | Option.some r =>
    match r with
    | [] => Option.none
    | c :: r1 =>
      if isWsChar c then
        match r1.dropWhile isWsChar with
        | [] => Option.none
        | q :: r3 =>
          if isQuote q then
            let payload := r3.takeWhile (fun ch => !(isQuote ch))
            if payload.isEmpty then Option.none
            else
              match r3.drop payload.length with
              | [] => Option.none
              | q2 :: r4 => if isQuote q2 then Option.some (payload, r4) else Option.none
          else Option.none
      else Option.none

/-- Ordered alternation over keyword alternatives, as in the regexes. -/
def tryAlt (tryOne : List Char → List Char → Option (List Char × List Char)) :
    List (List Char) → List Char → Option (List Char × List Char)
  | [], _ => Option.none
  | kw :: kws, cs =>
    match tryOne kw cs with
    | Option.some res => Option.some res
    | Option.none => tryAlt tryOne kws cs

/-- Fuelled global scan with one of the pattern families: at each position
try the alternation; on a match emit the capture and continue after the
match, otherwise advance one character. -/
def scanPattern (tryOne : List Char → List Char → Option (List Char × List Char))
    (kws : List (List Char)) : Nat → List Char → List (List Char)
  | 0, _ => []
  | _ + 1, [] => []
  | fuel + 1, c :: cs =>
    match tryAlt tryOne kws (c :: cs) with
    | Option.some (word, rest) => word :: scanPattern tryOne kws fuel rest
    | Option.none => scanPattern tryOne kws fuel cs

/-- Keyword alternatives of the import-path pattern. -/
def importKws : List (List Char) := ["from".data, "import".data, "require".data]

/-- Keyword alternatives of the class pattern. -/
def classKws : List (List Char) := ["class".data]

/-- Keyword alternatives of the function pattern. -/
def funcKws : List (List Char) := ["function".data, "def".data, "fn".data]

/-- The reference kinds produced by extractCodeReferences: the source's
type strings import, class and function. -/
inductive RefKind where
  | imp
  | cls
  | fn
deriving DecidableEq, Repr

/-- A reference record: the (type, value) pair pushed by the extractor. -/
structure Ref where
  kind : RefKind
  value : String
deriving DecidableEq, Repr

/-- References found inside one fenced block body, in the source's order
of import paths first, then class names, then function names. -/
def refsInBlock (block : List Char) : List Ref :=
  ((scanPattern tryImportKw importKws (block.length + 1) block).map
    fun w => Ref.mk RefKind.imp (String.mk w))
  ++ ((scanPattern tryDefKw classKws (block.length + 1) block).map
    fun w => Ref.mk RefKind.cls (String.mk w))
  ++ ((scanPattern tryDefKw funcKws (block.length + 1) block).map
    fun w => Ref.mk RefKind.fn (String.mk w))

/-- Model of extractCodeReferences (add-code-pointers, lines 240-272): scan
the document for fenced code blocks and collect the three pattern families
inside each block, block by block. -/
def extractCodeReferences (content : String) : List Ref :=
  (scanBlocks (content.data.length + 1) content.data).flatMap refsInBlock

/-- Substring test on character lists, as the JavaScript includes method. -/
def containsSub (sub : List Char) : List Char → Bool
  | [] => sub.isEmpty
  | c :: t => sub.isPrefixOf (c :: t) || containsSub sub t

/-- Substring test on strings: s contains sub. -/
def strIncludes (s sub : String) : Bool := containsSub sub.data s.data

/-- Node path.basename on a slash-separated path without trailing slashes:
the segment after the last slash. -/
def basenameChars (cs : List Char) : List Char :=
  cs.foldl (fun acc c => if c = '/' then [] else acc ++ [c]) []

/-- String form of basenameChars. -/
def basenameStr (p : String) : String := String.mk (basenameChars p.data)

/-- The suffix starting at the last dot of the input, when any dot exists. -/
def lastDotSuffix : List Char → Option (List Char)
  | [] => Option.none
  | c :: t =>
    match lastDotSuffix t with
    | Option.some s => Option.some s
    | Option.none => if c = '.' then Option.some (c :: t) else Option.none

/-- Node path.extname: the suffix of the basename from its last dot, where a
dot in the first position of the basename does not start an extension. -/
def extnameChars (cs : List Char) : List Char :=
  match basenameChars cs with
  | [] => []
  | _ :: t =>
    match lastDotSuffix t with
    | Option.some s => s
    | Option.none => []

/-- Node path.basename(f, path.extname(f)): the basename with its own
extension stripped. -/
def basenameNoExtChars (cs : List Char) : List Char :=
  let b := basenameChars cs
  let e := extnameChars cs
  if e.isEmpty then b else b.take (b.length - e.length)

/-- String form of basenameNoExtChars. -/
def basenameNoExt (p : String) : String := String.mk (basenameNoExtChars p.data)

/-- A pointer candidate as pushed by matchReferencesToFiles: a source file
and a human-readable reason. -/
structure Pointer where
  file : String
  reason : String
deriving DecidableEq, Repr

/-- Definition keywords of the symbol-definition test regex. -/
def defKws : List (List Char) := ["class".data, "function".data, "def".data, "fn".data]

/-- Test one position for keyword, whitespace, the exact symbol, and a word
boundary after it. -/
def tryDefines (value : List Char) (kw : List Char) (cs : List Char) : Bool :=
  match dropPre? kw cs with
  | Option.none => false
  | Option.some r =>
    match r with
    | [] => false
    | c :: r1 =>
      if isWsChar c then
        match dropPre? value (r1.dropWhile isWsChar) with
        | Option.none => false
        | Option.some r3 =>
          match r3 with
          | [] => true
          | d :: _ => !(isWordChar d)
      else false

/-- Fuelled scan for a definition-shaped occurrence of the symbol anywhere
in the content (the test call of the regex built in matchReferencesToFiles). -/
def definesSymbolAux (value : List Char) : Nat → List Char → Bool
  | 0, _ => false
  | _ + 1, [] => false
  | fuel + 1, c :: cs =>
    defKws.any (fun kw => tryDefines value kw (c :: cs)) || definesSymbolAux value fuel cs

/-- Whether the file content defines the symbol, per the regex
(class|function|def|fn)\s+value\b of the source. -/
def definesSymbol (content : String) (value : String) : Bool :=
  definesSymbolAux value.data (content.data.length + 1) content.data

/-- The type strings attached to references by the extractor. -/
def kindName : RefKind → String
  | RefKind.imp => "import"
  | RefKind.cls => "class"
  | RefKind.fn => "function"

/-- Model of matchReferencesToFiles (add-code-pointers, lines 274-306).
For an import reference a source file is a candidate when its path contains
the reference value as a substring or its basename with its extension
stripped equals the basename of the reference value (extension kept, as in
the source's path.basename(ref.value)).  For class and function references
every readable source file whose content has a definition-shaped occurrence
of the symbol yields a pointer; unreadable files are skipped. -/
def matchReferencesToFiles (references : List Ref) (sourceFiles : List String)
    (readFile : String → Option String) : List Pointer :=
  references.flatMap fun ref =>
    match ref.kind with
    | RefKind.imp =>
      (sourceFiles.filter fun f =>
        strIncludes f ref.value || (basenameNoExt f == basenameStr ref.value)).map
        fun f => Pointer.mk f ("imports " ++ ref.value)
    | _ =>
      sourceFiles.filterMap fun f =>
        match readFile f with
        | Option.none => Option.none
        | Option.some content =>
          if definesSymbol content ref.value then
            Option.some (Pointer.mk f ("defines " ++ kindName ref.kind ++ " " ++ ref.value))
          else Option.none

/-- One step of the reduce in generateCodePointers (lines 325-333): record
the reason under the pointer's file, appending it only when not yet present. -/
def addReason : List (String × List String) → String → String → List (String × List String)
  | [], f, r => [(f, [r])]
  | (f0, rs) :: rest, f, r =>
    if f0 = f then (f0, if r ∈ rs then rs else rs ++ [r]) :: rest
    else (f0, rs) :: addReason rest f r

/-- Model of the reduce in generateCodePointers: fold the pointer list into
a per-file list of reason strings. -/
def buildFileReasons (pointers : List Pointer) : List (String × List String) :=
  pointers.foldl (fun acc p => addReason acc p.file p.reason) []

/-- A small JSON value model for the persisted report files. -/
inductive JVal where
  | jstr : String → JVal
  | jnum : Int → JVal
  | jarr : List JVal → JVal
  | jobj : List (String × JVal) → JVal

/-- Property lookup on a JSON value: defined on objects, absent otherwise. -/
def getField : JVal → String → Option JVal
  | JVal.jobj fields, k => (fields.find? (fun kv => kv.1 == k)).map (fun kv => kv.2)
  | _, _ => Option.none

/-- The files array read by the consumers as value.files: the string
elements of the files field when it is an array, nothing otherwise. -/
def filesOf (v : JVal) : List String :=
  match getField v "files" with
  | Option.some (JVal.jarr xs) =>
    xs.filterMap (fun x =>
      match x with
      | JVal.jstr s => Option.some s
      | _ => Option.none)
  | _ => []

/-- The top-level object written by generateCodePointers (add-code-pointers,
lines 337-344): the keys generated, total_source_files, total_mappings and
mappings, with the per-document pointer maps nested under mappings. -/
def codePointersOutput (generated : String) (totalSourceFiles : Nat)
    (mappings : List (String × JVal)) : JVal :=
  JVal.jobj
    [("generated", JVal.jstr generated),
     ("total_source_files", JVal.jnum totalSourceFiles),
     ("total_mappings", JVal.jnum mappings.length),
     ("mappings", JVal.jobj mappings)]

/-- Model of the documented-set builder in analyzeCoverage (lines 196-203):
collect value.files over the top-level entries of the parsed
CODE_POINTERS.json object. -/
def documentedFilesOf (cp : JVal) : List String :=
  match cp with
  | JVal.jobj fields => fields.flatMap (fun kv => filesOf kv.2)
  | _ => []

/-- The document part of a pointer key: the text before the first hash sign,
as key.split at the hash taken at index zero. -/
def docOf (k : String) : String := String.mk (k.data.takeWhile (fun c => c ≠ '#'))

/-- Model of the affected-docs search in trackCodeChanges (lines 163-168):
the documents whose top-level entry has a files array containing the
changed path. -/
def affectedDocsOf (cp : JVal) (filePath : String) : List String :=
  match cp with
  | JVal.jobj fields =>
    fields.filterMap (fun kv =>
      if (filesOf kv.2).contains filePath then Option.some (docOf kv.1) else Option.none)
  | _ => []

/-- Absolute path of a repository-relative path under the working directory,
as the path join used by the scripts. -/
def absOf (cwd rel : String) : String := cwd ++ "/" ++ rel

/-- Model of the isDocumented test in analyzeCoverage (lines 226-228) for a
code file given by its repository-relative path: the documented set contains
the relative path, or the absolute path, or some documented entry contains
the file's basename as a substring. -/
def isDocumented (documented : List String) (cwd : String) (rel : String) : Bool :=
  documented.contains rel || documented.contains (absOf cwd rel)
    || documented.any (fun d => strIncludes d (basenameStr (absOf cwd rel)))

/-- The documented-files counter of analyzeCoverage (lines 230-232). -/
def documentedCount (documented : List String) (cwd : String) (files : List String) : Nat :=
  files.countP (fun f => isDocumented documented cwd f)

/-- The undocumented-files counter of analyzeCoverage (line 234). -/
def undocumentedCount (documented : List String) (cwd : String) (files : List String) : Nat :=
  files.countP (fun f => !(isDocumented documented cwd f))

/-- The coverage percentage of analyzeCoverage (lines 264-268), times one
hundred: Math.round of documented over total times one hundred, with zero
total left at zero.  Division is exact rational rounding, written with
natural division. -/
def pctTimes100 (documented total : Nat) : Nat :=
  if total > 0 then (200 * documented + total) / (2 * total) else 0

/-- The coverage percentage as a rational number rounded to two decimals. -/
def coveragePct (documented total : Nat) : ℚ :=
  (pctTimes100 documented total : ℚ) / 100

/-- A rational rounded to two decimal places, half up: the spec-side reading
of rounded to two decimal places in claim C6. -/
def round2 (q : ℚ) : ℚ := (⌊100 * q + 1 / 2⌋ : ℚ) / 100

/-- One entry of the parsed CODE_POINTERS.json object as the Accuracy
Validator walks it: the key, the optional files array and the optional
lastValidated timestamp. -/
structure CPEntry where
  key : String
  files : Option (List String)
  lastValidated : Option Int
deriving DecidableEq, Repr

/-- A finding pushed by the validators.  The broken-link finding of the
source carries no requiresAIReview field, modelled as false. -/
structure Finding where
  docFile : String
  ftype : String
  severity : String
  codeFile : String
  autoFixable : Bool
  requiresAIReview : Bool
deriving DecidableEq, Repr

/-- The loop body of validateViaCodePointers (validate-accuracy, lines
313-354) for one code file of one entry.  The file system is abstracted as
fileInfo, giving the modification time in milliseconds of an existing file
and nothing for a missing one: a missing target yields the broken-link hard
error; an existing target with a lastValidated older than its modification
time yields the stale-documentation finding, with severity error past a
seven-day gap and requiresAIReview set. -/
def perFileFinding (fileInfo : String → Option Int) (e : CPEntry) (codeFile : String) :
    List Finding :=
  match fileInfo codeFile with
  | Option.none =>
    [Finding.mk (docOf e.key) "broken_code_link" "error" codeFile false false]
  | Option.some m =>
    match e.lastValidated with
    | Option.none => []
    | Option.some lv =>
      if m - lv > 0 then
        [Finding.mk (docOf e.key) "stale_documentation"
          (if m - lv > 7 * msPerDay then "error" else "warning") codeFile false true]
      else []

/-- The findings contributed by one CODE_POINTERS entry in
validateViaCodePointers (validate-accuracy, lines 308-355): nothing without
a files array, else the per-file findings over the files array. -/
def entryFindings (fileInfo : String → Option Int) (e : CPEntry) : List Finding :=
  match e.files with
  | Option.none => []
  | Option.some fs => fs.flatMap (perFileFinding fileInfo e)

/-- Whether a pointer key ends in the markdown extension, as the generator's
document-file filter guarantees for every mappings key. -/
def endsWithMd (k : String) : Bool := ".md".data.isSuffixOf k.data

/-- Model of validateViaCodePointers: concatenate the findings of every
entry of the parsed CODE_POINTERS object. -/
def validateViaCodePointers (fileInfo : String → Option Int) (entries : List CPEntry) :
    List Finding :=
  entries.flatMap (entryFindings fileInfo)

/-- Model of validateFilePaths (validate-accuracy, lines 216-235): one
broken_reference error per extracted path missing from the file system;
extraction and the working-directory join are abstracted as the given path
list and existence predicate. -/
def validateFilePaths (docFile : String) (filePaths : List String)
    (fsExists : String → Bool) : List Finding :=
  (filePaths.filter (fun p => !(fsExists p))).map
    (fun p => Finding.mk docFile "broken_reference" "error" p false false)

/-- The error list accumulated by validateAccuracy (lines 393-414): the
error-severity pointer findings plus every document's error-severity
findings. -/
def errorFindings (pointerFindings : List Finding) (docFindings : List (List Finding)) :
    List Finding :=
  pointerFindings.filter (fun fd => fd.severity == "error")
    ++ docFindings.flatMap (fun fs => fs.filter (fun fd => fd.severity == "error"))

/-- The accuracy score of validateAccuracy (lines 416-428): total checks is
the number of documents, failed is the length of the error list, passed is
total minus failed, and the score is passed over total when total is
positive, defaulting to one. -/
def accuracyScore (pointerFindings : List Finding) (docFindings : List (List Finding)) : ℚ :=
  let total := docFindings.length
  let failed := (errorFindings pointerFindings docFindings).length
  if total > 0 then ((total : ℚ) - failed) / total else 1

theorem lastCodeChange_cons (t : Int) (ts : List Int) :
    lastCodeChange (t :: ts) = Option.some (ts.foldl max t) := by
  suffices h : ∀ (l : List Int) (a : Int),
      l.foldl
        (fun acc t =>
          match acc with
          | Option.none => Option.some t
          | Option.some m => if t > m then Option.some t else Option.some m)
        (Option.some a) = Option.some (l.foldl max a) by
    simpa [lastCodeChange] using h ts t
  intro l
  induction l with
  | nil => intro a; rfl
  | cons x xs ih =>
    intro a
    have hmax : (if x > a then Option.some x else Option.some a) = Option.some (max a x) := by
      by_cases h : a < x
      · simp [h, max_eq_right (le_of_lt h)]
      · simp [h, max_eq_left (le_of_not_lt h)]
    simp only [List.foldl_cons]
    rw [hmax]
    exact ih (max a x)

/-- Claim C1 (counterexample): a dependency that changed exactly at the
document's last-edit time refutes the claimed rule.  The code returns risk
none for it, while the claim's otherwise-branch (days derived from the gap,
here zero days) yields low. -/
theorem staleRisk_claim_counterexample :
    calculateStaleRisk 0 (lastCodeChange [0]) = Risk.none
      ∧ claimRiskC1 0 [0] = Risk.low
      ∧ Risk.none ≠ Risk.low := by
  refine ⟨by decide, by decide, by decide⟩

/-- Claim C1 (amended): the staleness risk is none when no resolved
dependency changed strictly after the document's last edit (a change at
exactly the edit time also yields none); otherwise the risk is derived from
the ceiling day gap between the last edit and the most recent dependency
change, with the thirty, seven and three day thresholds; and a document is
marked stale exactly when the risk is neither none nor low. -/
theorem staleRisk_amended :
    (∀ (docT : Int) (depTimes : List Int),
        calculateStaleRisk docT (lastCodeChange depTimes) = amendedRiskC1 docT depTimes)
    ∧ (∀ r : Risk, statusOf r = "stale" ↔ (r ≠ Risk.none ∧ r ≠ Risk.low)) := by
  constructor
  · intro docT deps
    cases deps with
    | nil => rfl
    | cons t ts =>
      rw [lastCodeChange_cons]
      rfl
  · intro r
    cases r <;> decide

/-- Claim C1 (witness): the amended rule applied at a concrete document
time, dependency list and risk tier. -/
theorem staleRisk_amended_witness :
    calculateStaleRisk 5 (lastCodeChange [1, 2]) = amendedRiskC1 5 [1, 2]
      ∧ (statusOf Risk.medium = "stale" ↔ (Risk.medium ≠ Risk.none ∧ Risk.medium ≠ Risk.low)) :=
  ⟨staleRisk_amended.1 5 [1, 2], staleRisk_amended.2 Risk.medium⟩

/-- Claim C5: the impact tier computed by analyzeChangeImpact is high when
the total changed lines exceed one hundred or the breaking-change flag is
set, medium when they exceed twenty, and low otherwise. -/
theorem impactOf_spec :
    ∀ (linesAdded linesRemoved : Nat) (hasBreakingChange : Bool),
      impactOf linesAdded linesRemoved hasBreakingChange =
        (if linesAdded + linesRemoved > 100 ∨ hasBreakingChange = true then "high"
         else if linesAdded + linesRemoved > 20 then "medium"
         else "low") := by
  intro la lr b
  cases b <;> simp [impactOf]

/-- Claim C5 (witness): one hundred fifty changed lines classify as high
impact. -/
theorem impactOf_spec_witness : impactOf 150 0 false = "high" := by
  have h := impactOf_spec 150 0 false
  norm_num at h
  exact h

/-- Claim C9 (counterexample): one document containing two broken file
references yields total checks one, failed two, and an accuracy score of
minus one, outside the claimed zero-to-one range. -/
theorem accuracyScore_counterexample :
    accuracyScore [] [validateFilePaths "a.md" ["x.ts", "y.ts"] (fun _ => false)] = -1
      ∧ accuracyScore [] [validateFilePaths "a.md" ["x.ts", "y.ts"] (fun _ => false)] < 0 := by
  have h : (errorFindings [] [validateFilePaths "a.md" ["x.ts", "y.ts"] (fun _ => false)]).length
      = 2 := rfl
  have hT : ([validateFilePaths "a.md" ["x.ts", "y.ts"] (fun _ => false)] :
      List (List Finding)).length = 1 := rfl
  constructor
  · simp only [accuracyScore, h, hT]
    norm_num
  · simp only [accuracyScore, h, hT]
    norm_num

/-- Claim C9 (amended): the aggregate accuracy score equals one minus the
number of error findings divided by the number of documents (each error
finding subtracts one from the passed count, rather than each failing
document), so it is at most one, equals one when there are no error
findings, and can drop below zero when error findings outnumber documents. -/
theorem accuracyScore_amended :
    ∀ (pointerFindings : List Finding) (docFindings : List (List Finding)),
      accuracyScore pointerFindings docFindings ≤ 1
      ∧ (0 < docFindings.length →
          accuracyScore pointerFindings docFindings =
            1 - ((errorFindings pointerFindings docFindings).length : ℚ) / docFindings.length)
      ∧ ((errorFindings pointerFindings docFindings).length = 0 →
          accuracyScore pointerFindings docFindings = 1) := by
  intro pf df
  by_cases hT : df.length > 0
  · have hT0 : (0 : ℚ) < (df.length : ℚ) := by exact_mod_cast hT
    have hscore : accuracyScore pf df =
        ((df.length : ℚ) - (errorFindings pf df).length) / df.length := by
      simp only [accuracyScore, hT, if_true]
    refine ⟨?_, ?_, ?_⟩
    · rw [hscore]
      apply div_le_one_of_le₀
      · have : (0 : ℚ) ≤ ((errorFindings pf df).length : ℚ) := by positivity
        linarith
      · positivity
    · intro _
      rw [hscore, sub_div, div_self (ne_of_gt hT0)]
    · intro hE
      rw [hscore, hE]
      simp only [Nat.cast_zero, sub_zero]
      exact div_self (ne_of_gt hT0)
  · have hscore : accuracyScore pf df = 1 := by
      simp only [accuracyScore, hT, if_false]
    refine ⟨le_of_eq hscore, ?_, fun _ => hscore⟩
    intro hpos
    exact absurd hpos hT

/-- Claim C9 (witness): with no findings at all and one document, the
amended score formula gives exactly one. -/
theorem accuracyScore_amended_witness :
    accuracyScore [] [[]] = 1 ∧ accuracyScore [] [[]] ≤ 1 :=
  ⟨(accuracyScore_amended [] [[]]).2.2 rfl, (accuracyScore_amended [] [[]]).1⟩

/-- Claim C10 (counterexample): a document whose fenced block declares the
same class twice yields two identical (kind, value) reference pairs: the
extractor does not deduplicate. -/
theorem extractor_no_dedup :
    extractCodeReferences "```\nclass Foo\nclass Foo\n```"
        = [Ref.mk RefKind.cls "Foo", Ref.mk RefKind.cls "Foo"]
      ∧ ¬ (extractCodeReferences "```\nclass Foo\nclass Foo\n```").Nodup := by
  refine ⟨by decide, by decide⟩

theorem addReason_nodup :
    ∀ (acc : List (String × List String)) (f r : String),
      (∀ pr ∈ acc, pr.2.Nodup) → ∀ pr ∈ addReason acc f r, pr.2.Nodup := by
  intro acc
  induction acc with
  | nil =>
    intro f r _ pr hpr
    simp only [addReason, List.mem_singleton] at hpr
    subst hpr
    simp
  | cons head tail ih =>
    obtain ⟨f0, rs⟩ := head
    intro f r h pr hpr
    simp only [addReason] at hpr
    by_cases hf : f0 = f
    · rw [if_pos hf] at hpr
      rcases List.mem_cons.mp hpr with heq | htail
      · subst heq
        by_cases hr : r ∈ rs
        · simpa [hr] using h (f0, rs) (List.mem_cons_self _ _)
        · have hbase : rs.Nodup := h (f0, rs) (List.mem_cons_self _ _)
          simp only [hr, if_false]
          rw [← List.concat_eq_append]
          exact List.Nodup.concat hr hbase
      · exact h pr (List.mem_cons_of_mem _ htail)
    · rw [if_neg hf] at hpr
      rcases List.mem_cons.mp hpr with heq | htail
      · subst heq
        exact h (f0, rs) (List.mem_cons_self _ _)
      · exact ih f r (fun q hq => h q (List.mem_cons_of_mem _ hq)) pr htail

theorem buildFileReasons_aux :
    ∀ (ps : List Pointer) (acc : List (String × List String)),
      (∀ pr ∈ acc, pr.2.Nodup) →
      ∀ pr ∈ ps.foldl (fun acc p => addReason acc p.file p.reason) acc, pr.2.Nodup := by
  intro ps
  induction ps with
  | nil =>
    intro acc h pr hpr
    simpa using h pr (by simpa using hpr)
  | cons p pt ih =>
    intro acc h pr hpr
    simp only [List.foldl_cons] at hpr
    exact ih _ (addReason_nodup acc p.file p.reason h) pr hpr

/-- Claim C10 (amended): the Reference Extractor itself performs no
deduplication (duplicate (kind, value) pairs are retained in textual
order); deduplication happens only when the pointer generator folds the
pointers into per-file reason lists, and those reason lists never contain
a duplicate reason. -/
theorem reasonLists_nodup :
    ∀ (pointers : List Pointer) (f : String) (rs : List String),
      (f, rs) ∈ buildFileReasons pointers → rs.Nodup := by
  intro ps f rs hmem
  have h := buildFileReasons_aux ps [] (by intro pr hpr; simp at hpr) (f, rs) hmem
  simpa using h

/-- Claim C10 (witness): two identical pointers fold into one entry whose
reason list is duplicate-free. -/
theorem reasonLists_nodup_witness :
    (("a.ts", ["imports x"]) ∈ buildFileReasons
        [Pointer.mk "a.ts" "imports x", Pointer.mk "a.ts" "imports x"])
      ∧ List.Nodup ["imports x"] :=
  ⟨by decide,
   reasonLists_nodup [Pointer.mk "a.ts" "imports x", Pointer.mk "a.ts" "imports x"]
     "a.ts" ["imports x"] (by decide)⟩

theorem endsWithMd_ne_files (k : String) (h : endsWithMd k = true) : k ≠ "files" := by
  intro heq
  rw [heq] at h
  exact absurd h (by decide)

/-- Claim C2: for every CODE_POINTERS.json object written by the pointer
generator, whose mappings keys are markdown file names, the documented-set
builder of the Coverage Aggregator and the affected-docs search of the
Change History Tracker, which both read a files array from each top-level
entry, find nothing: the documented set is empty and no document is ever
reported as affected, regardless of the mappings content. -/
theorem codePointers_consumers_empty :
    ∀ (generated : String) (totalSourceFiles : Nat) (mappings : List (String × JVal)),
      (∀ kv ∈ mappings, endsWithMd kv.1 = true) →
      documentedFilesOf (codePointersOutput generated totalSourceFiles mappings) = []
      ∧ ∀ filePath,
          affectedDocsOf (codePointersOutput generated totalSourceFiles mappings) filePath
            = [] := by
  intro g n mappings h
  have hfind : mappings.find? (fun kv => kv.1 == "files") = Option.none := by
    apply List.find?_eq_none.mpr
    intro kv hkv
    have hne : kv.1 ≠ "files" := endsWithMd_ne_files kv.1 (h kv hkv)
    simp [hne]
  have hmap : filesOf (JVal.jobj mappings) = [] := by
    simp [filesOf, getField, hfind]
  constructor
  · simp [documentedFilesOf, codePointersOutput, filesOf, getField, hfind]
  · intro fp
    simp [affectedDocsOf, codePointersOutput, filesOf, getField, hfind]

/-- Claim C2 (witness): a generator output with one mapped document and one
source file still yields an empty documented set and no affected document
for a change to that very source file. -/
theorem codePointers_consumers_empty_witness :
    documentedFilesOf (codePointersOutput "2024-01-01" 3
        [("API.md", JVal.jobj [("src/a.ts", JVal.jarr [JVal.jstr "imports x"])])]) = []
      ∧ affectedDocsOf (codePointersOutput "2024-01-01" 3
          [("API.md", JVal.jobj [("src/a.ts", JVal.jarr [JVal.jstr "imports x"])])])
          "src/a.ts" = [] := by
  have h := codePointers_consumers_empty "2024-01-01" 3
    [("API.md", JVal.jobj [("src/a.ts", JVal.jarr [JVal.jstr "imports x"])])]
    (by intro kv hkv; rw [List.mem_singleton] at hkv; subst hkv; decide)
  exact ⟨h.1, h.2 "src/a.ts"⟩

theorem isPrefixOf_self : ∀ (l : List Char), l.isPrefixOf l = true := by
  intro l
  induction l with
  | nil => rfl
  | cons c t ih => simp [List.isPrefixOf, ih]

theorem strIncludes_self : ∀ s : String, strIncludes s s = true := by
  intro s
  unfold strIncludes
  cases h : s.data with
  | nil => rfl
  | cons c t => simp [containsSub, isPrefixOf_self]

/-- Claim C3 (counterexample): a document mentioning a source path only in
an inline code span produces no reference and hence no pointer, although
the path names an existing source file. -/
theorem inlineSpan_no_pointer :
    extractCodeReferences "Use `src/foo.ts` here." = []
      ∧ matchReferencesToFiles (extractCodeReferences "Use `src/foo.ts` here.")
          ["src/foo.ts"] (fun _ => Option.none) = [] := by
  refine ⟨by decide, by decide⟩

theorem scanBlocks_eq_nil :
    ∀ (fuel : Nat) (cs : List Char), splitAtFence cs = Option.none →
      scanBlocks fuel cs = [] := by
  intro fuel
  induction fuel with
  | zero => intro cs _; rfl
  | succ n ih =>
    intro cs hsf
    cases cs with
    | nil => rfl
    | cons c t =>
      have hdrop : dropPre? fenceChars (c :: t) = Option.none := by
        cases hd : dropPre? fenceChars (c :: t) with
        | none => rfl
        | some rest => rw [splitAtFence, hd] at hsf; exact absurd hsf (by simp)
      have htail : splitAtFence t = Option.none := by
        rw [splitAtFence, hdrop] at hsf
        cases ht : splitAtFence t with
        | none => rfl
        | some pr => rw [ht] at hsf; exact absurd hsf (by simp)
      have hopen : openFence? (c :: t) = Option.none := by
        rw [openFence?, hdrop]
      rw [scanBlocks, hopen]
      exact ih t htail

/-- Claim C3 (amended): the Reference Extractor collects references only
from fenced code regions: a document with no three-backtick fence (in
particular one whose only mention of a path sits in an inline code span)
yields no reference at all, while an import path inside a fenced block is
extracted and resolved to a Pointer. -/
theorem extract_only_fenced :
    (∀ content : String, splitAtFence content.data = Option.none →
        extractCodeReferences content = [])
    ∧ matchReferencesToFiles (extractCodeReferences "```\nimport \"src/foo.ts\"\n```")
        ["src/foo.ts"] (fun _ => Option.none)
        = [Pointer.mk "src/foo.ts" "imports src/foo.ts"] := by
  constructor
  · intro content h
    unfold extractCodeReferences
    rw [scanBlocks_eq_nil _ _ h]
    rfl
  · decide

/-- Claim C3 (witness): the no-fence branch of the amended claim applied to
the inline-span document. -/
theorem extract_only_fenced_witness :
    extractCodeReferences "The file `src/a.ts` is the entry point." = [] :=
  extract_only_fenced.1 "The file `src/a.ts` is the entry point." (by decide)

/-- Claim C4 (counterexample): the claimed matching rule fails: the
reference bar/foo.js and the source file foo.ts agree on their basenames
with extensions stripped (both foo), yet the resolver produces no pointer,
because the source strips the extension only from the file, not from the
reference. -/
theorem basename_rule_counterexample :
    matchReferencesToFiles [Ref.mk RefKind.imp "bar/foo.js"] ["foo.ts"]
        (fun _ => Option.none) = []
      ∧ basenameNoExt "foo.ts" = basenameNoExt "bar/foo.js" := by
  refine ⟨by decide, by decide⟩

/-- Claim C4 (amended): a path-literal reference whose value exactly equals
a path in the source set always yields a Pointer to that file, through the
substring branch, since every path contains itself; the basename branch of
the match compares the source file's basename with its extension stripped
against the reference's basename with its extension kept. -/
theorem exactMatch_resolves :
    (∀ (references : List Ref) (sourceFiles : List String)
        (readFile : String → Option String) (v : String),
        Ref.mk RefKind.imp v ∈ references → v ∈ sourceFiles →
        Pointer.mk v ("imports " ++ v) ∈ matchReferencesToFiles references sourceFiles readFile)
    ∧ (∀ s : String, strIncludes s s = true) := by
  constructor
  · intro refs srcs rf v href hsrc
    unfold matchReferencesToFiles
    apply List.mem_flatMap.mpr
    refine ⟨Ref.mk RefKind.imp v, href, ?_⟩
    apply List.mem_map.mpr
    refine ⟨v, ?_, rfl⟩
    apply List.mem_filter.mpr
    exact ⟨hsrc, by simp [strIncludes_self]⟩
  · exact strIncludes_self

/-- Claim C4 (witness): the exact-match property at a concrete reference
and source set. -/
theorem exactMatch_resolves_witness :
    Pointer.mk "src/foo.ts" "imports src/foo.ts"
      ∈ matchReferencesToFiles [Ref.mk RefKind.imp "src/foo.ts"] ["src/foo.ts"]
          (fun _ => Option.none) :=
  exactMatch_resolves.1 [Ref.mk RefKind.imp "src/foo.ts"] ["src/foo.ts"]
    (fun _ => Option.none) "src/foo.ts" (by decide) (by decide)

theorem perFileFinding_codeFile :
    ∀ (fileInfo : String → Option Int) (e : CPEntry) (x : String),
      ∀ fd ∈ perFileFinding fileInfo e x, fd.codeFile = x := by
  intro fi e x fd hfd
  unfold perFileFinding at hfd
  rcases h1 : fi x with _ | m
  · simp only [h1, List.mem_singleton] at hfd
    subst hfd
    rfl
  · simp only [h1] at hfd
    rcases h2 : e.lastValidated with _ | lv
    · simp only [h2] at hfd
      exact absurd hfd (List.not_mem_nil fd)
    · simp only [h2] at hfd
      by_cases h3 : m - lv > 0
      · simp only [if_pos h3, List.mem_singleton] at hfd
        subst hfd
        rfl
      · simp only [if_neg h3] at hfd
        exact absurd hfd (List.not_mem_nil fd)

theorem filter_flatMap_nil {α β : Type} (g : α → List β) (p : β → Bool) :
    ∀ (l : List α), (∀ x ∈ l, (g x).filter p = []) → (l.flatMap g).filter p = [] := by
  intro l
  induction l with
  | nil => intro _; rfl
  | cons x t ih =>
    intro h
    rw [List.flatMap_cons, List.filter_append, h x (List.mem_cons_self _ _),
      ih (fun y hy => h y (List.mem_cons_of_mem _ hy))]
    rfl

theorem filter_flatMap_count_one {α β : Type} [DecidableEq α]
    (g : α → List β) (p : β → Bool) (a : α) :
    ∀ (l : List α), l.count a = 1 → (∀ x ∈ l, x ≠ a → (g x).filter p = []) →
      (l.flatMap g).filter p = (g a).filter p := by
  intro l
  induction l with
  | nil => intro hc _; exact absurd hc (by simp)
  | cons x t ih =>
    intro hc hother
    by_cases hx : x = a
    · subst hx
      have hzero : t.count x = 0 := by
        have := List.count_cons_self x t
        omega
      have hnot : x ∉ t := List.count_eq_zero.mp hzero
      have htail : (t.flatMap g).filter p = [] := by
        apply filter_flatMap_nil
        intro y hy
        exact hother y (List.mem_cons_of_mem _ hy) (fun hya => hnot (hya ▸ hy))
      rw [List.flatMap_cons, List.filter_append, htail, List.append_nil]
    · have hcx : t.count a = 1 := by
        have := List.count_cons_of_ne (fun h => hx h.symm) t
        omega
      have hhead : (g x).filter p = [] := hother x (List.mem_cons_self _ _) hx
      rw [List.flatMap_cons, List.filter_append, hhead,
        ih hcx (fun y hy => hother y (List.mem_cons_of_mem _ hy)), List.nil_append]

/-- Claim C7: a entry whose files array names the target exactly once, whose
target exists, and whose lastValidated is older than the target's
modification time, contributes exactly one stale_documentation finding for
that pointer, with severity error when the gap exceeds seven days and
warning otherwise, and with requiresAIReview set. -/
theorem stale_pointer_flagged :
    ∀ (fileInfo : String → Option Int) (e : CPEntry) (fs : List String)
      (codeFile : String) (m lv : Int),
      e.files = Option.some fs → fs.count codeFile = 1 →
      fileInfo codeFile = Option.some m → e.lastValidated = Option.some lv → lv < m →
      (entryFindings fileInfo e).filter
          (fun fd => fd.ftype == "stale_documentation" && fd.codeFile == codeFile)
        = [Finding.mk (docOf e.key) "stale_documentation"
            (if m - lv > 7 * msPerDay then "error" else "warning") codeFile false true] := by
  intro fi e fs cf m lv hfs hcount hinfo hlv hgap
  unfold entryFindings
  rw [hfs]
  rw [filter_flatMap_count_one (perFileFinding fi e) _ cf fs hcount ?other]
  case other =>
    intro x hx hne
    apply List.filter_eq_nil_iff.mpr
    intro fd hfd
    have hcf : fd.codeFile = x := perFileFinding_codeFile fi e x fd hfd
    simp [hcf, hne]
  · unfold perFileFinding
    have hpos : m - lv > 0 := by omega
    simp only [hinfo, hlv, if_pos hpos]
    simp

/-- Claim C7 (witness): the ten-day scenario: lastValidated ten days older
than the target's modification time yields exactly the one stale finding
with severity error and requiresAIReview set. -/
theorem stale_pointer_flagged_witness :
    (entryFindings
        (fun f => if f == "src/foo.ts" then Option.some (10 * msPerDay) else Option.none)
        (CPEntry.mk "a.md" (Option.some ["src/foo.ts"]) (Option.some 0))).filter
        (fun fd => fd.ftype == "stale_documentation" && fd.codeFile == "src/foo.ts")
      = [Finding.mk "a.md" "stale_documentation" "error" "src/foo.ts" false true] := by
  have h := stale_pointer_flagged
    (fun f => if f == "src/foo.ts" then Option.some (10 * msPerDay) else Option.none)
    (CPEntry.mk "a.md" (Option.some ["src/foo.ts"]) (Option.some 0))
    ["src/foo.ts"] "src/foo.ts" (10 * msPerDay) 0 rfl (by decide) (by decide) rfl (by decide)
  have e1 : docOf "a.md" = "a.md" := by decide
  have e2 : (if (10 * msPerDay - 0 > 7 * msPerDay) then "error" else "warning") = "error" := by
    decide
  rw [e1, e2] at h
  exact h

/-- Claim C8: a pointer whose target no longer exists yields a
broken_code_link finding with severity error marked non-auto-fixable, and
every finding for that missing target is such a hard error, never a
warning. -/
theorem missing_target_hard_error :
    ∀ (fileInfo : String → Option Int) (e : CPEntry) (fs : List String) (codeFile : String),
      e.files = Option.some fs → codeFile ∈ fs → fileInfo codeFile = Option.none →
      (Finding.mk (docOf e.key) "broken_code_link" "error" codeFile false false
          ∈ entryFindings fileInfo e)
      ∧ ∀ fd ∈ entryFindings fileInfo e, fd.codeFile = codeFile →
          fd.ftype = "broken_code_link" ∧ fd.severity = "error" ∧ fd.autoFixable = false := by
  intro fi e fs cf hfs hmem hinfo
  constructor
  · unfold entryFindings
    rw [hfs]
    apply List.mem_flatMap.mpr
    refine ⟨cf, hmem, ?_⟩
    unfold perFileFinding
    rw [hinfo]
    exact List.mem_singleton.mpr rfl
  · intro fd hfd hcf
    unfold entryFindings at hfd
    rw [hfs] at hfd
    obtain ⟨x, hx, hfdx⟩ := List.mem_flatMap.mp hfd
    have hxcf : fd.codeFile = x := perFileFinding_codeFile fi e x fd hfdx
    have hxeq : x = cf := by rw [← hxcf, hcf]
    subst hxeq
    unfold perFileFinding at hfdx
    rw [hinfo] at hfdx
    rw [List.mem_singleton] at hfdx
    subst hfdx
    exact ⟨rfl, rfl, rfl⟩

/-- Claim C8 (witness): a missing target at a concrete entry yields the hard
error finding. -/
theorem missing_target_hard_error_witness :
    Finding.mk "b.md" "broken_code_link" "error" "src/gone.ts" false false
      ∈ entryFindings (fun _ => Option.none)
          (CPEntry.mk "b.md" (Option.some ["src/gone.ts"]) Option.none) := by
  have h := (missing_target_hard_error (fun _ => Option.none)
    (CPEntry.mk "b.md" (Option.some ["src/gone.ts"]) Option.none)
    ["src/gone.ts"] "src/gone.ts" rfl (by decide) rfl).1
  have e1 : docOf "b.md" = "b.md" := by decide
  rw [e1] at h
  exact h

theorem countP_bool_congr {α : Type} (p q : α → Bool) :
    ∀ l : List α, (∀ a ∈ l, p a = q a) → l.countP p = l.countP q := by
  intro l h
  apply List.countP_congr
  intro x hx
  rw [h x hx]

theorem countP_not {α : Type} (p : α → Bool) :
    ∀ l : List α, l.countP (fun a => !p a) = l.length - l.countP p := by
  intro l
  induction l with
  | nil => rfl
  | cons x t ih =>
    have hle : t.countP p ≤ t.length := List.countP_le_length p
    rw [List.countP_cons, List.countP_cons, List.length_cons, ih]
    cases hx : p x <;> simp [hx] <;> omega

theorem pct_round2 (k N : Nat) : coveragePct k N = round2 ((k : ℚ) / N) := by
  by_cases hN : N > 0
  · have hN0 : N ≠ 0 := by omega
    have hNQ : (N : ℚ) ≠ 0 := Nat.cast_ne_zero.mpr hN0
    unfold coveragePct pctTimes100 round2
    rw [if_pos hN]
    have harg : 100 * ((k : ℚ) / N) + 1 / 2
        = (((200 * k + N : ℕ) : ℤ) : ℚ) / ((2 * N : ℕ) : ℚ) := by
      push_cast
      field_simp
      ring
    rw [harg, Rat.floor_intCast_div_natCast]
    congr 1
  · have hz : N = 0 := by omega
    subst hz
    simp [coveragePct, pctTimes100, round2]
    norm_num

theorem isDocumented_eq_contains (documented : List String) (cwd : String) (f : String)
    (h : documented.contains f = false →
      documented.contains (absOf cwd f) = false
      ∧ ∀ d ∈ documented, strIncludes d (basenameStr (absOf cwd f)) = false) :
    isDocumented documented cwd f = documented.contains f := by
  by_cases hc : documented.contains f = true
  · rw [hc]
    unfold isDocumented
    rw [hc]
    rfl
  · have hc' : documented.contains f = false := by
      cases hcc : documented.contains f
      · rfl
      · exact absurd hcc hc
    obtain ⟨h1, h2⟩ := h hc'
    rw [hc']
    unfold isDocumented
    rw [hc', h1]
    simp only [Bool.false_or]
    apply List.any_eq_false.mpr
    intro d hd
    simp [h2 d hd]

/-- Claim C6 (counterexample): the Pointer set documents exactly one of the
two source files by exact path, yet the aggregator reports two documented
files, because the second file's basename occurs as a substring of the
documented path. -/
theorem coverage_count_counterexample :
    documentedCount ["src/foo.ts"] "/r" ["src/foo.ts", "src/o.ts"] = 2
      ∧ (["src/foo.ts", "src/o.ts"].countP
          (fun f => (["src/foo.ts"] : List String).contains f)) = 1
      ∧ (2 : Nat) ≠ 1 := by
  refine ⟨by decide, by decide, by decide⟩

/-- Claim C6 (amended): when the documented set consists of exact
repository-relative paths and no documented path contains the basename of
an undocumented file as a substring (and none equals an undocumented file's
absolute path), the aggregator reports documented count k, undocumented
count N minus k, and a coverage percentage equal to k over N rounded to two
decimal places; without that proviso the basename-substring branch can
overcount. -/
theorem coverage_counts_amended :
    ∀ (documented files : List String) (cwd : String),
      (∀ f ∈ files, documented.contains f = false →
        documented.contains (absOf cwd f) = false
        ∧ ∀ d ∈ documented, strIncludes d (basenameStr (absOf cwd f)) = false) →
      documentedCount documented cwd files
          = files.countP (fun f => documented.contains f)
      ∧ undocumentedCount documented cwd files
          = files.length - files.countP (fun f => documented.contains f)
      ∧ coveragePct (documentedCount documented cwd files) files.length
          = round2 ((files.countP (fun f => documented.contains f) : ℚ) / files.length) := by
  intro documented files cwd h
  have hpt : ∀ f ∈ files, isDocumented documented cwd f = documented.contains f :=
    fun f hf => isDocumented_eq_contains documented cwd f (h f hf)
  have hdoc : documentedCount documented cwd files
      = files.countP (fun f => documented.contains f) :=
    countP_bool_congr _ _ files hpt
  have hundoc : undocumentedCount documented cwd files
      = files.length - files.countP (fun f => documented.contains f) := by
    unfold undocumentedCount
    rw [countP_bool_congr (fun f => !(isDocumented documented cwd f))
      (fun f => !(documented.contains f)) files
      (fun f hf => by
        show (!(isDocumented documented cwd f)) = (!(documented.contains f))
        rw [hpt f hf]),
      countP_not]
  exact ⟨hdoc, hundoc, by rw [hdoc]; exact pct_round2 _ _⟩

/-- Claim C6 (witness): ten source files, four documented by exact path:
documented count four, undocumented count six, coverage percentage 0.40. -/
theorem coverage_counts_amended_witness :
    documentedCount ["src/a1.ts", "src/a2.ts", "src/a3.ts", "src/a4.ts"] "/repo"
        ["src/a1.ts", "src/a2.ts", "src/a3.ts", "src/a4.ts", "src/b5.ts",
         "src/b6.ts", "src/b7.ts", "src/b8.ts", "src/b9.ts", "src/c10.ts"] = 4
      ∧ undocumentedCount ["src/a1.ts", "src/a2.ts", "src/a3.ts", "src/a4.ts"] "/repo"
        ["src/a1.ts", "src/a2.ts", "src/a3.ts", "src/a4.ts", "src/b5.ts",
         "src/b6.ts", "src/b7.ts", "src/b8.ts", "src/b9.ts", "src/c10.ts"] = 6
      ∧ coveragePct 4 10 = 2 / 5 := by
  have h := coverage_counts_amended
    ["src/a1.ts", "src/a2.ts", "src/a3.ts", "src/a4.ts"]
    ["src/a1.ts", "src/a2.ts", "src/a3.ts", "src/a4.ts", "src/b5.ts",
     "src/b6.ts", "src/b7.ts", "src/b8.ts", "src/b9.ts", "src/c10.ts"]
    "/repo" (by decide)
  have hk : (["src/a1.ts", "src/a2.ts", "src/a3.ts", "src/a4.ts", "src/b5.ts",
      "src/b6.ts", "src/b7.ts", "src/b8.ts", "src/b9.ts", "src/c10.ts"].countP
      (fun f => (["src/a1.ts", "src/a2.ts", "src/a3.ts", "src/a4.ts"] :
        List String).contains f)) = 4 := by decide
  refine ⟨?_, ?_, ?_⟩
  · rw [h.1, hk]
  · rw [h.2.1, hk]
    decide
  · have h3 := h.2.2
    have hlen : (["src/a1.ts", "src/a2.ts", "src/a3.ts", "src/a4.ts", "src/b5.ts",
        "src/b6.ts", "src/b7.ts", "src/b8.ts", "src/b9.ts", "src/c10.ts"] :
        List String).length = 10 := by decide
    rw [h.1, hk, hlen] at h3
    rw [h3]
    norm_num [round2]

end UltraDoc
